import Mathlib

/-!
Verification of the generation/validation/self-repair pipeline of the Axiom
repository (Rust), against its natural-language specification.

The Rust source is shallowly embedded:

* Rust `String`/`&str` values become Lean `String` (a wrapper around
  `List Char` in this toolchain); the handful of `str` operations the
  program uses (`contains`, `replace`, `starts_with`, `trim`, `lines`,
  `split_whitespace`, `to_lowercase`, `trim_end_matches`) are re-implemented
  below as structurally recursive, executable functions.  Rust's `str::len`
  is a byte length; it is modelled by the character count, which coincides
  on the ASCII text the program manipulates.  Rust's `to_lowercase` is
  Unicode-aware; it is modelled by ASCII lowering, which coincides on the
  ASCII verdict phrases the program checks.
* `HashMap<String, String>` becomes an association list with
  insert-replaces semantics (`AMap.insert`); only lookup, length and the
  key set are ever observed, so iteration order is irrelevant except in
  `render_template`, where the map's (unspecified) iteration order is made
  an explicit list-order parameter.
* Fallible Rust functions returning `Result<T, E>` become `Except E T`.
* The blocking LLM HTTP calls (`call_llm_api` and the methods built on it:
  `fix_specification`, `validate_syntax`, `validate_type_checking`,
  `validate_formal_verification`) are abstracted as oracle parameters; the
  pure request-independent logic around them (response parsing, the repair
  loop, depth escalation, error propagation) is embedded faithfully.
  Oracles are indexed by call site so that theorems quantifying over the
  oracle family capture which calls can influence a result.
* Floating-point metadata (`confidence_score`) and timestamps are carried
  by no claim under verification and are omitted from the embedded
  `Specification` record, which keeps the fields the pipeline reads.
-/

namespace SpecGen

/-! ## Rust string primitives, over `List Char` -/

/-- Embeds Rust `pat.is_prefix_of`-style matching: `List.isPrefixOf` on the
underlying characters.  `startsWithStr s p` is Rust `s.starts_with(p)`. -/
def startsWithStr (s pre : String) : Bool :=
  pre.data.isPrefixOf s.data

/-- Core of Rust `str::contains` on character lists: does `pat` occur as a
contiguous sublist of `hay`? -/
def containsSubL (pat : List Char) : List Char → Bool
  | [] => pat.isEmpty
  | c :: rest => pat.isPrefixOf (c :: rest) || containsSubL pat rest

/-- Embeds Rust `s.contains(pat)`. -/
def rustContains (s pat : String) : Bool :=
  containsSubL pat.data s.data

/-- Fuel-driven core of Rust `str::replace`: replaces leftmost,
non-overlapping occurrences of `pat`, never rescanning replacement text.
Intended fuel is the haystack length; the program only calls `replace`
with the non-empty patterns `"{{" ++ name ++ "}}"`. -/
def replaceCore (pat rep : List Char) : Nat → List Char → List Char
  | 0, l => l
  | _ + 1, [] => []
  | f + 1, c :: rest =>
    if pat.isPrefixOf (c :: rest) then
      rep ++ replaceCore pat rep f (List.drop (pat.length - 1) rest)
    else
      c :: replaceCore pat rep f rest

/-- Embeds Rust `s.replace(pat, rep)` for the non-empty patterns used by the
program (for an empty pattern Rust would interleave `rep` at every
boundary; the guard returns `s` unchanged, and no call site can reach it). -/
def rustReplace (s pat rep : String) : String :=
  if pat.data.isEmpty then s else ⟨replaceCore pat.data rep.data s.data.length s.data⟩

/-- Embeds Rust `char::to_lowercase` restricted to ASCII (the program only
lowercases ASCII verdict phrases). -/
def toLowerStr (s : String) : String :=
  ⟨s.data.map Char.toLower⟩

/-- Embeds Rust `str::trim` (strip leading and trailing whitespace). -/
def trimL (l : List Char) : List Char :=
  ((l.dropWhile Char.isWhitespace).reverse.dropWhile Char.isWhitespace).reverse

/-- String wrapper for `trimL`. -/
def trimStr (s : String) : String :=
  ⟨trimL s.data⟩

/-- Embeds Rust `s.split_whitespace().next().unwrap_or("")`: the first
maximal whitespace-free chunk of `s`. -/
def firstWord (s : String) : String :=
  ⟨(s.data.dropWhile Char.isWhitespace).takeWhile (fun c => !c.isWhitespace)⟩

/-- Embeds Rust `s.trim_end_matches(|c| c == ',' || c == ';')`. -/
def trimEndCommaSemi (s : String) : String :=
  ⟨(s.data.reverse.dropWhile (fun c => c = ',' || c = ';')).reverse⟩

/-- Embeds Rust byte slicing `s[n..]` for the ASCII prefixes the program
drops (character count equals byte count on ASCII). -/
def dropStr (s : String) (n : Nat) : String :=
  ⟨s.data.drop n⟩

/-- Splitter for Rust `str::lines`: cut at every `'\n'`, accumulator held
reversed. -/
def linesAux (acc : List Char) : List Char → List (List Char)
  | [] => [acc.reverse]
  | c :: rest =>
    if c = '\n' then acc.reverse :: linesAux [] rest
    else linesAux (c :: acc) rest

/-- Rust `str::lines` strips one trailing `'\r'` from each line. -/
def stripTrailingCR (l : List Char) : List Char :=
  match l.getLast? with
  | some c => if c = '\r' then l.dropLast else l
  | none => l

/-- Rust `str::lines` yields no trailing empty line for a trailing
newline. -/
def dropTrailingEmpty (parts : List (List Char)) : List (List Char) :=
  match parts.getLast? with
  | some last => if last.isEmpty then parts.dropLast else parts
  | none => parts

/-- Embeds Rust `s.lines()` collected into a list. -/
def rustLines (s : String) : List String :=
  if s.data.isEmpty then []
  else ((dropTrailingEmpty (linesAux [] s.data)).map stripTrailingCR).map (fun l => ⟨l⟩)

/-- Embeds Rust `str::parse::<usize>` on the already-trimmed slice the
validator extracts: an optional leading `'+'` followed by at least one
decimal digit (the `usize` overflow bound is not modelled; no claim
involves numbers near it). -/
def parseUsize (s : String) : Option Nat :=
  let l := match s.data with
    | '+' :: rest => rest
    | l => l
  if l.isEmpty then none
  else if l.all Char.isDigit then
    some (l.foldl (fun acc c => acc * 10 + (c.toNat - '0'.toNat)) 0)
  else none

/-! ## Association-list model of `HashMap<String, String>` -/

/-- Association-list model of `HashMap<String, String>`; `insert` replaces
the value of an existing key in place and appends a fresh key. -/
def AMap := List (String × String)

/-- Embeds `HashMap::insert` (replace-or-add; length grows only on fresh
keys, as in Rust). -/
def AMap.insert (m : AMap) (k v : String) : AMap :=
  if (List.any m (fun p => p.1 = k) : Bool) then
    List.map (fun p => if p.1 = k then (k, v) else p) m
  else
    List.append m [(k, v)]

/-- Embeds `HashMap::get(..).cloned()`. -/
def AMap.lookup (m : AMap) (k : String) : Option String :=
  (List.find? (fun p => p.1 = k) m).map (fun p => p.2)

/-- Embeds `HashMap::len`. -/
def AMap.size (m : AMap) : Nat :=
  List.length m

/-- Key set of the map model. -/
def AMap.keys (m : AMap) : List String :=
  List.map (fun p => p.1) m

/-! ## Data model (src/models, src/errors.rs, src/implementations/config.rs)

`SpecificationMetadata` (timestamp, f32 confidence score, validation flag)
is read by no embedded operation or claim and is omitted from the record. -/

/-- Embeds `VerificationLanguage` (src/models/common.rs). -/
inductive VerificationLanguage where
  | fStarLang
  | dafnyLang
  | coqLang
  | isabelleLang
  | leanLang
  | tlaPlus
  | why3Lang
  | z3SMT
  | acsl
  | jml
  | liquid
  | rustMIRAI
  | custom (tag : String)
deriving DecidableEq

/-- Embeds `IssueSeverity` (src/models/specification.rs). -/
inductive IssueSeverity where
  | error
  | warning
  | info
deriving DecidableEq

/-- Embeds `ValidationIssue` (src/models/specification.rs). -/
structure ValidationIssue where
  severity : IssueSeverity
  message : String
  related_property : Option String
  line_number : Option Nat
  suggested_fix : Option String
deriving DecidableEq

/-- Embeds `ValidationReport` (src/models/specification.rs). -/
structure ValidationReport where
  is_valid : Bool
  issues : List ValidationIssue
  tool_validated : Bool
  tool_output : Option String
deriving DecidableEq

/-- Embeds `FormalSpecification` (src/models/specification.rs); `components`
uses the association-list map model. -/
structure FormalSpecification where
  verification_language : VerificationLanguage
  spec_code : String
  components : AMap
  dependencies : List String

/-- Embeds `Specification` (src/models/specification.rs) restricted to the
fields the embedded pipeline reads (`formal_properties` and `metadata` are
carried opaquely by the source and inspected by no claim). -/
structure Specification where
  id : String
  source_requirements : List String
  formal_spec : FormalSpecification

/-- Embeds `ValidationDepth` (src/traits/specification_generator.rs). -/
inductive ValidationDepth where
  | basic
  | typeCheck
  | formalVerification
deriving DecidableEq

/-- Embeds `ConfigError` (src/implementations/config.rs); the `io`/`yaml`
error payloads are carried as their rendered messages. -/
inductive ConfigError where
  | fileReadError (msg : String)
  | yamlParseError (msg : String)
  | missingApiKey (msg : String)
  | envVarNotFound (msg : String)
deriving DecidableEq

/-- Embeds `SpecGenError` (src/implementations/specification_generator.rs);
`io`/`serde` payloads are carried as rendered messages. -/
inductive SpecGenError where
  | apiError (msg : String)
  | configErr (e : ConfigError)
  | parseError (msg : String)
  | templateError (msg : String)
  | validationError (msg : String)
  | networkError (msg : String)
  | ioError (msg : String)
  | serdeError (msg : String)
  | httpError (status : Nat) (message : String)
deriving DecidableEq

/-- Embeds the constructors of `AxiomError` (src/errors.rs) the pipeline
produces. -/
inductive AxiomError where
  | specificationError (msg : String)
  | systemError (msg : String)
  | specTranslationError (msg : String)
  | externalToolError (tool : String) (message : String)
  | invalidInput (msg : String)
deriving DecidableEq

/-! ## Configuration operations (src/implementations/config.rs) -/

/-- Embeds `GeneratorConfig::get_template`: look the name up in
`prompt_templates`. -/
def get_template (prompt_templates : AMap) (template_name : String) : Option String :=
  prompt_templates.lookup template_name

/-- The fixed provider list of `get_api_key` (declaration order). -/
def providersList : List (String × String) :=
  [("openai", "OPENAI_API_KEY"),
   ("anthropic", "ANTHROPIC_API_KEY"),
   ("azure", "AZURE_OPENAI_API_KEY"),
   ("mistral", "MISTRAL_API_KEY"),
   ("together", "TOGETHER_API_KEY")]

/-- Embeds the `match preferred_provider.to_lowercase().as_str()` table of
`get_api_key` (the `_` arm yields the sentinel `"UNKNOWN"`). -/
def envVarFor (lowered : String) : String :=
  if lowered = "openai" then "OPENAI_API_KEY"
  else if lowered = "anthropic" then "ANTHROPIC_API_KEY"
  else if lowered = "azure" then "AZURE_OPENAI_API_KEY"
  else if lowered = "mistral" then "MISTRAL_API_KEY"
  else if lowered = "together" then "TOGETHER_API_KEY"
  else "UNKNOWN"

/-- Embeds the `for (provider, env_var) in providers` loop of `get_api_key`:
skip the entry equal to the lowercased preferred provider, return the first
remaining provider whose environment variable is set. -/
def apiKeyLoop (env : String → Option String) (lowered : String) :
    List (String × String) → Except ConfigError (String × String)
  | [] => .error (.missingApiKey "No API keys found for any provider")
  | (provider, envVar) :: rest =>
    if provider ≠ lowered then
      match env envVar with
      | some key => .ok (provider, key)
      | none => apiKeyLoop env lowered rest
    else apiKeyLoop env lowered rest

/-- Embeds `GeneratorConfig::get_api_key`.  `configApiKey` is
`self.llm_api.api_key`; `env` is the process environment
(`std::env::var`, `none` for unset). -/
def get_api_key (configApiKey : Option String) (env : String → Option String)
    (preferred_provider : String) : Except ConfigError (String × String) :=
  match configApiKey with
  | some api_key => .ok (preferred_provider, api_key)
  | none =>
    let lowered := toLowerStr preferred_provider
    let env_var_name := envVarFor lowered
    match (if env_var_name ≠ "UNKNOWN" then env env_var_name else none) with
    | some key => .ok (preferred_provider, key)
    | none => apiKeyLoop env lowered providersList

/-! ## Prompt renderer (src/implementations/specification_generator.rs,
`render_template`) -/

/-- Embeds the substitution loop of `render_template`: for each
`(key, value)` pair, `result = result.replace("{{key}}", value)`.  Rust
iterates the `HashMap` in an unspecified order; the order is made explicit
as the list order of `params`, so every theorem about a particular order
describes one possible execution. -/
def applyParams (template : String) (params : List (String × String)) : String :=
  params.foldl
    (fun result kv => rustReplace result ("\x7b\x7b" ++ kv.1 ++ "\x7d\x7d") kv.2) template

/-- Embeds `LLMSpecificationGenerator::render_template`. -/
def render_template (prompt_templates : AMap) (template_name : String)
    (params : List (String × String)) : Except SpecGenError String :=
  match get_template prompt_templates template_name with
  | none => .error (.templateError ("Template not found: " ++ template_name))
  | some template => .ok (applyParams template params)

/-! ## Dependency extraction (`extract_dependencies`) -/

/-- Embeds the per-language prefix table of `extract_dependencies`. -/
def depPatterns : VerificationLanguage → List String
  | .fStarLang => ["open ", "include ", "module "]
  | .dafnyLang => ["import "]
  | .coqLang => ["Require Import ", "Require Export "]
  | .isabelleLang => ["imports "]
  | .leanLang => ["import "]
  | .tlaPlus => ["EXTENDS "]
  | .why3Lang => ["use "]
  | .z3SMT => ["(include "]
  | _ => []

/-- Embeds the inner `for pattern in &patterns` loop of
`extract_dependencies` for one already-trimmed line: for each matching
prefix, record the first whitespace-delimited token after it, stripped of
trailing commas and semicolons, if non-empty. -/
def depsOfLine (trimmed : String) (patterns : List String) : List String :=
  patterns.foldl
    (fun acc pat =>
      if startsWithStr trimmed pat then
        let dep := trimEndCommaSemi (firstWord (trimStr (dropStr trimmed pat.length)))
        if dep ≠ "" then acc ++ [dep] else acc
      else acc)
    []

/-- Embeds the free function `extract_dependencies`. -/
def extract_dependencies (content : String) (language : VerificationLanguage) :
    List String :=
  let patterns := depPatterns language
  if patterns.isEmpty then []
  else ((rustLines content).map (fun line => depsOfLine (trimStr line) patterns)).flatten

/-! ## Response parsing (`parse_formal_specification`) -/

/-- Loop state of `parse_formal_specification`. -/
structure ParseState where
  components : AMap
  in_code_block : Bool
  extracted_code : String
  current_component : String
  current_component_name : String

/-- Embeds one iteration of the `for line in lines` loop of
`parse_formal_specification`: a ``` fence toggles the block state, saves a
non-empty component on exit and names a component on a tagged opening
fence (`line.len() > 3`, a byte count that equals the character count on
ASCII); lines inside a block accumulate into the current component (when
one is named) and into the code blob. -/
def parseLineStep (st : ParseState) (line : String) : ParseState :=
  if startsWithStr line "```" then
    let inb := !st.in_code_block
    let comps :=
      if !inb && st.current_component ≠ "" then
        st.components.insert st.current_component_name st.current_component
      else st.components
    let curComp := if !inb && st.current_component ≠ "" then "" else st.current_component
    let name :=
      if line.length > 3 && inb then "component_" ++ Nat.repr (comps.size + 1)
      else st.current_component_name
    { components := comps, in_code_block := inb, extracted_code := st.extracted_code,
      current_component := curComp, current_component_name := name }
  else if st.in_code_block then
    { st with
      current_component :=
        if st.current_component_name ≠ "" then st.current_component ++ line ++ "\n"
        else st.current_component,
      extracted_code := st.extracted_code ++ line ++ "\n" }
  else st

/-- Embeds `LLMSpecificationGenerator::parse_formal_specification`: store
the whole answer under `"description"`, scan the lines, flush a leftover
component, fall back to the whole answer when no fenced code was
collected, and extract dependencies from the resulting code. -/
def parse_formal_specification (content : String)
    (verification_language : VerificationLanguage) : FormalSpecification :=
  let st0 : ParseState :=
    { components := AMap.insert [] "description" content, in_code_block := false,
      extracted_code := "", current_component := "", current_component_name := "" }
  let st := (rustLines content).foldl parseLineStep st0
  let comps :=
    if st.current_component ≠ "" && st.current_component_name ≠ "" then
      st.components.insert st.current_component_name st.current_component
    else st.components
  let code := if st.extracted_code = "" then content else st.extracted_code
  { verification_language := verification_language, spec_code := code,
    components := comps, dependencies := extract_dependencies code verification_language }

/-- Wraps `parse_formal_specification` in the source's `Result` signature;
the Rust function has no failing return path. -/
def parseFormalSpecificationRes (content : String)
    (verification_language : VerificationLanguage) :
    Except SpecGenError FormalSpecification :=
  .ok (parse_formal_specification content verification_language)

/-! ## Validator response parsing (`validate_syntax`)

`validate_syntax` builds a review prompt, calls the LLM, and parses the
free-form answer into a `ValidationReport`.  The prompt/transport part is
the abstracted oracle; the answer parsing below is embedded verbatim. -/

/-- Loop state of the issue-extraction loop in `validate_syntax`. -/
structure SynState where
  issues : List ValidationIssue
  current_issue : String
  current_line : Option Nat
  current_severity : IssueSeverity
  current_suggestion : Option String

/-- Embeds the line-number extraction of `validate_syntax`: find the first
occurrence of `"Line "`, then the next `':'` after it, and parse the slice
between them as a `usize` after trimming. -/
def extractLineNum (line : String) : Option Nat :=
  match findSubIdx "Line ".data line.data with
  | none => none
  | some start =>
    let afterTag := line.data.drop (start + 5)
    match findCharIdx ':' afterTag with
    | none => none
    | some stop => parseUsize (trimStr ⟨afterTag.take stop⟩)
where
  /-- Index of the first occurrence of `pat` in `hay` (Rust `str::find`). -/
  findSubIdx (pat : List Char) : List Char → Option Nat
    | [] => if pat.isEmpty then some 0 else none
    | c :: rest =>
      if pat.isPrefixOf (c :: rest) then some 0
      else (findSubIdx pat rest).map (· + 1)
  /-- Index of the first occurrence of a character (Rust `str::find(char)`). -/
  findCharIdx (ch : Char) : List Char → Option Nat
    | [] => none
    | c :: rest => if c = ch then some 0 else (findCharIdx ch rest).map (· + 1)

/-- Embeds the severity classification of an issue line in
`validate_syntax`: case-sensitive substring checks for `"Error"`, then
`"Warning"`, defaulting to `Info`. -/
def classifySeverity (line : String) : IssueSeverity :=
  if rustContains line "Error" then .error
  else if rustContains line "Warning" then .warning
  else .info

/-- Embeds Rust `line.trim_start_matches("Suggestion:")` as used in
`validate_syntax` (strip every leading copy of the prefix). -/
def trimStartSuggestion : Nat → List Char → List Char
  | 0, l => l
  | f + 1, l =>
    if "Suggestion:".data.isPrefixOf l then
      trimStartSuggestion f (l.drop "Suggestion:".length)
    else l

/-- Embeds one iteration of the issue-extraction loop of `validate_syntax`:
a line starting with `"Line "` or `"Location "` flushes the pending issue
and starts a new one (the parsed line number only overwrites the previous
value when parsing succeeds, as in the source); a `"Suggestion:"` line
attaches a suggestion to the pending issue; other lines are ignored. -/
def synStep (st : SynState) (line : String) : SynState :=
  if startsWithStr line "Line " || startsWithStr line "Location " then
    let issues :=
      if st.current_issue ≠ "" then
        st.issues ++ [{ severity := st.current_severity, message := st.current_issue,
                        related_property := none, line_number := st.current_line,
                        suggested_fix := st.current_suggestion }]
      else st.issues
    let current_line :=
      match extractLineNum line with
      | some n => some n
      | none => st.current_line
    { issues := issues, current_issue := line, current_line := current_line,
      current_severity := classifySeverity line, current_suggestion := none }
  else if startsWithStr line "Suggestion:" then
    let sug := some (trimStr ⟨trimStartSuggestion line.data.length line.data⟩)
    { st with current_suggestion := sug }
  else st

/-- The two fixed verdict phrases of `validate_syntax`, checked
case-insensitively against the whole answer. -/
def syntaxVerdict (response : String) : Bool :=
  rustContains (toLowerStr response) "the specification syntax is valid: true" ||
  rustContains (toLowerStr response) "is the specification syntax valid? true"

/-- Embeds the pure answer-parsing part of
`LLMSpecificationGenerator::validate_syntax` (the Basic-depth review): the
verdict comes from the two fixed phrase checks over the whole lowercased
answer, the issue list from the line scan, and a pending issue is flushed
after the loop; `tool_validated` is always false and `tool_output` absent. -/
def parseSyntaxResponse (response : String) : ValidationReport :=
  let is_valid := syntaxVerdict response
  let st := (rustLines response).foldl synStep
    { issues := [], current_issue := "", current_line := none,
      current_severity := .info, current_suggestion := none }
  let issues :=
    if st.current_issue ≠ "" then
      st.issues ++ [{ severity := st.current_severity, message := st.current_issue,
                      related_property := none, line_number := st.current_line,
                      suggested_fix := st.current_suggestion }]
    else st.issues
  { is_valid := is_valid, issues := issues, tool_validated := false, tool_output := none }

/-! ## Auto-repair loop (`fix_specification_with_retry`) and
`validate_specification`

The model-backed methods are abstracted as an oracle family indexed by
call site: index 0 is the initial validation inside
`validate_specification`; index `k ≥ 1` is repair attempt `k` inside the
loop (`fixO k` abstracts the `fix_specification` call of attempt `k`,
`valO k` the re-validation of attempt `k` at the chosen depth).  A theorem
whose hypotheses constrain only indices `≤ k` and whose conclusion is a
fixed value holds for every behaviour of the later-indexed oracles, which
is the embedding's rendering of "no further model calls are made". -/

/-- Oracle family abstracting the LLM-backed calls of the repair loop. -/
structure FixOracles (E : Type) where
  fixO : Nat → Specification → ValidationReport → Except E Specification
  valO : Nat → ValidationDepth → Specification → Except E ValidationReport

/-- Embeds the re-validation depth choice inside the loop of
`fix_specification_with_retry`: escalate to `TypeCheck` exactly when some
issue of the previous report has `Error` severity and a message containing
the (case-sensitive) substring `"type"`; otherwise `Basic`. -/
def chooseRevalidationDepth (report : ValidationReport) : ValidationDepth :=
  if report.issues.any (fun i =>
      (match i.severity with | .error => true | _ => false) &&
      rustContains i.message "type") then
    .typeCheck
  else
    .basic

/-- The Warning issue appended when the retry budget is exhausted; its
suggested fix carries the last attempted specification's code. -/
def retriesExhaustedIssue (current_spec : Specification) : ValidationIssue :=
  { severity := .warning,
    message := "Automatic fixing was attempted 3 times but issues remain",
    related_property := none, line_number := none,
    suggested_fix := some current_spec.formal_spec.spec_code }

/-- The Info issue appended on a successful repair at attempt `attempt`;
its suggested fix carries the fixed specification's code. -/
def fixedAfterIssue (attempt : Nat) (fixed_spec : Specification) : ValidationIssue :=
  { severity := .info,
    message := "Specification was automatically fixed after " ++ Nat.repr attempt
      ++ " attempts",
    related_property := none, line_number := none,
    suggested_fix := some fixed_spec.formal_spec.spec_code }

/-- Embeds the `for attempt in 1..=MAX_RETRIES` loop of
`fix_specification_with_retry`: `attempt` is the loop counter, the second
argument the remaining attempts (entered with `MAX_RETRIES = 3`).  Each
iteration fixes the current specification, re-validates it at
`chooseRevalidationDepth` of the current report, returns the new report
plus an Info issue on success, and otherwise continues with the fixed
specification and new report; when attempts are exhausted the current
report is returned with a Warning issue appended. -/
def fixLoopAux {E : Type} (oc : FixOracles E) (attempt : Nat) :
    Nat → Specification → ValidationReport → Except E ValidationReport
  | 0, current_spec, current_report =>
    .ok { current_report with
          issues := current_report.issues ++ [retriesExhaustedIssue current_spec] }
  | rem + 1, current_spec, current_report =>
    match oc.fixO attempt current_spec current_report with
    | .error e => .error e
    | .ok fixed_spec =>
      match oc.valO attempt (chooseRevalidationDepth current_report) fixed_spec with
      | .error e => .error e
      | .ok new_report =>
        if new_report.is_valid then
          .ok { new_report with
                issues := new_report.issues ++ [fixedAfterIssue attempt fixed_spec] }
        else
          fixLoopAux oc (attempt + 1) rem fixed_spec new_report

/-- Embeds `LLMSpecificationGenerator::fix_specification_with_retry`: a
valid report is returned unchanged, otherwise the bounded repair loop runs
with `MAX_RETRIES = 3`. -/
def fix_specification_with_retry {E : Type} (oc : FixOracles E)
    (spec : Specification) (report : ValidationReport) : Except E ValidationReport :=
  if report.is_valid then .ok report
  else fixLoopAux oc 1 3 spec report

/-- Embeds `LLMSpecificationGenerator::validate_specification`: run the
depth-dispatched validator (oracle index 0), return a valid report
unchanged; on an invalid report run the repair loop, returning its report
on success and falling back to the original report when the repair
operation fails with an error. -/
def validate_specification {E : Type} (oc : FixOracles E)
    (spec : Specification) (validation_depth : ValidationDepth) :
    Except E ValidationReport :=
  match oc.valO 0 validation_depth spec with
  | .error e => .error e
  | .ok validation_report =>
    if validation_report.is_valid then .ok validation_report
    else
      match fix_specification_with_retry oc spec validation_report with
      | .ok fixed_report => .ok fixed_report
      | .error _ => .ok validation_report

/-! ## Concrete fixtures used by witnesses and counterexamples -/

/-- A concrete specification value. -/
def specX : Specification :=
  { id := "s", source_requirements := ["must encrypt data"],
    formal_spec := { verification_language := .fStarLang, spec_code := "c0",
                     components := [("description", "c0")], dependencies := [] } }

/-- A concrete invalid report. -/
def reportInvalid : ValidationReport :=
  { is_valid := false, issues := [], tool_validated := false, tool_output := none }

/-- A concrete valid report. -/
def reportValid : ValidationReport :=
  { is_valid := true, issues := [], tool_validated := false, tool_output := none }

/-- A concrete Model Gateway transport error, as `call_llm_api` surfaces it
after conversion to `AxiomError`. -/
def errX : AxiomError := .externalToolError "LLM API" "Network error: connection refused"

/-- A deterministic stub for `fix_specification`: append a character to the
specification code so each attempt's output is distinguishable. -/
def fixStep (s : Specification) : Specification :=
  { s with formal_spec := { s.formal_spec with spec_code := s.formal_spec.spec_code ++ "f" } }

/-- Oracle stub whose fixer always fails with a gateway error. -/
def ocErrX : FixOracles AxiomError :=
  { fixO := fun _ _ _ => .error errX, valO := fun _ _ _ => .ok reportInvalid }

/-- Oracle stub whose validator always reports invalid. -/
def ocAlwaysInvalid : FixOracles AxiomError :=
  { fixO := fun _ s _ => .ok (fixStep s), valO := fun _ _ _ => .ok reportInvalid }

/-- Oracle stub whose validator reports invalid on the initial call and
attempt 1, then valid from attempt 2 on. -/
def ocValidAt2 : FixOracles AxiomError :=
  { fixO := fun _ s _ => .ok (fixStep s),
    valO := fun n _ _ => if 2 ≤ n then .ok reportValid else .ok reportInvalid }

/-- A concrete environment with only the Mistral credential set. -/
def envMistralOnly : String → Option String :=
  fun v => if v = "MISTRAL_API_KEY" then some "mk" else none

/-! ## Specification-side predicates about component naming -/

/-- A synthetic component name: `component_n` for some `n ≥ 2`. -/
def NFName (name : String) : Prop :=
  ∃ n, 2 ≤ n ∧ name = "component_" ++ Nat.repr n

/-- Invariant of the line loop of `parse_formal_specification`: the
description entry never changes, the map never shrinks below one entry,
every key is the description key or a synthetic name, and a pending
component name (in particular whenever pending component text exists) is a
synthetic name. -/
def ParseInv (content : String) (st : ParseState) : Prop :=
  st.components.lookup "description" = some content ∧
  1 ≤ st.components.size ∧
  (∀ k ∈ st.components.keys, k = "description" ∨ NFName k) ∧
  (st.current_component_name = "" ∨ NFName st.current_component_name) ∧
  (st.current_component ≠ "" → NFName st.current_component_name)

/-- State predicate for answers whose fences never carry a language tag:
no component name or text is ever pending and the map keeps only the
description entry. -/
def NoTagState (content : String) (st : ParseState) : Prop :=
  st.current_component_name = "" ∧ st.current_component = "" ∧
  st.components = [("description", content)]

/-! ## Helper lemmas on the string primitives -/

/-- The result of `replaceCore` is independent of the fuel once the fuel
covers the haystack length. -/
theorem replaceCore_congr_fuel (pat rep : List Char) :
    ∀ (f1 : Nat) (f2 : Nat) (l : List Char), l.length ≤ f1 → l.length ≤ f2 →
      replaceCore pat rep f1 l = replaceCore pat rep f2 l := by
  intro f1
  induction f1 with
  | zero =>
    intro f2 l h1 _
    have hl : l = [] := List.length_eq_zero.mp (Nat.le_zero.mp h1)
    subst hl
    cases f2 <;> simp [replaceCore]
  | succ f ih =>
    intro f2 l h1 h2
    cases l with
    | nil => cases f2 <;> simp [replaceCore]
    | cons c rest =>
      cases f2 with
      | zero => simp at h2
      | succ g =>
        simp only [replaceCore]
        have hr1 : rest.length ≤ f := Nat.le_of_succ_le_succ h1
        have hr2 : rest.length ≤ g := Nat.le_of_succ_le_succ h2
        by_cases hp : pat.isPrefixOf (c :: rest) = true
        · simp only [hp, if_true]
          have hd : (List.drop (pat.length - 1) rest).length ≤ rest.length := by
            simp [List.length_drop]
          exact congrArg (rep ++ ·) (ih g _ (le_trans hd hr1) (le_trans hd hr2))
        · simp only [hp, if_false]
          exact congrArg (c :: ·) (ih g rest hr1 hr2)

/-- A haystack without any occurrence of the pattern is left unchanged by
`replaceCore`. -/
theorem replaceCore_of_not_contains (pat rep : List Char) :
    ∀ (f : Nat) (l : List Char), containsSubL pat l = false →
      replaceCore pat rep f l = l := by
  intro f
  induction f with
  | zero => intro l _; simp [replaceCore]
  | succ f ih =>
    intro l h
    cases l with
    | nil => simp [replaceCore]
    | cons c rest =>
      simp only [containsSubL, Bool.or_eq_false_iff] at h
      simp only [replaceCore, h.1, if_false]
      exact congrArg (c :: ·) (ih rest h.2)

/-- Rust `replace` leaves a string without occurrences of the pattern
unchanged. -/
theorem rustReplace_of_not_contains (s pat rep : String) :
    rustContains s pat = false → rustReplace s pat rep = s := by
  intro h
  unfold rustReplace
  by_cases hp : pat.data.isEmpty
  · simp [hp]
  · simp only [hp, if_false]
    have := replaceCore_of_not_contains pat.data rep.data s.data.length s.data h
    calc (⟨replaceCore pat.data rep.data s.data.length s.data⟩ : String)
        = ⟨s.data⟩ := congrArg String.mk this
      _ = s := rfl

/-- Rust `replace` substitutes a leftmost occurrence of the pattern and
continues after it, never rescanning the inserted replacement text. -/
theorem rustReplace_head (pat rest rep : String) (h : pat ≠ "") :
    rustReplace (pat ++ rest) pat rep = rep ++ rustReplace rest pat rep := by
  have hne : pat.data ≠ [] := fun hd => h (by cases pat with | mk d => cases hd; rfl)
  obtain ⟨p, pt, hpd⟩ : ∃ p pt, pat.data = p :: pt := by
    cases hpd : pat.data with
    | nil => exact absurd hpd hne
    | cons p pt => exact ⟨p, pt, rfl⟩
  have hdata : (pat ++ rest).data = pat.data ++ rest.data := rfl
  unfold rustReplace
  have hemp : pat.data.isEmpty = false := by simp [hpd]
  simp only [hemp, Bool.false_eq_true, if_false]
  apply congrArg String.mk
  rw [hdata]
  have hlen : (pat.data ++ rest.data).length = (pt.length + rest.data.length) + 1 := by
    simp [hpd]
    try omega
  rw [hlen]
  have hcons : pat.data ++ rest.data = p :: (pt ++ rest.data) := by rw [hpd]; rfl
  rw [hcons]
  simp only [replaceCore]
  have hpre : pat.data.isPrefixOf (p :: (pt ++ rest.data)) = true := by
    rw [List.isPrefixOf_iff_prefix, hpd]
    exact (p :: pt).prefix_append rest.data
  simp only [hpre, if_true]
  have hdrop : List.drop (pat.data.length - 1) (pt ++ rest.data) = rest.data := by
    have hl : pat.data.length - 1 = pt.length := by simp [hpd]
    rw [hl]
    exact List.drop_left pt rest.data
  rw [hdrop]
  exact congrArg (rep.data ++ ·)
    (replaceCore_congr_fuel pat.data rep.data _ _ rest.data (by omega) (by omega))

/-! ## Helper lemmas for dependency extraction -/

/-- A line matching no pattern contributes no dependency: the inner pattern
loop of `extract_dependencies` leaves its accumulator unchanged. -/
theorem depsOfLine_foldl_id (t : String) :
    ∀ (patterns : List String) (acc : List String),
      (∀ p ∈ patterns, startsWithStr t p = false) →
      patterns.foldl
        (fun acc pat =>
          if startsWithStr t pat then
            let dep := trimEndCommaSemi (firstWord (trimStr (dropStr t pat.length)))
            if dep ≠ "" then acc ++ [dep] else acc
          else acc)
        acc = acc := by
  intro patterns
  induction patterns with
  | nil => intro acc _; rfl
  | cons p ps ih =>
    intro acc h
    have hp : startsWithStr t p = false := h p (List.mem_cons_self p ps)
    simp only [List.foldl_cons, hp, Bool.false_eq_true, if_false]
    exact ih acc (fun q hq => h q (List.mem_cons_of_mem p hq))

/-- A line matching no pattern yields an empty dependency list. -/
theorem depsOfLine_eq_nil (t : String) (patterns : List String)
    (h : ∀ p ∈ patterns, startsWithStr t p = false) :
    depsOfLine t patterns = [] :=
  depsOfLine_foldl_id t patterns [] h

/-- Flattening a map may discard elements that map to `[]`: restricting to
the lines kept by a filter whose rejects map to `[]` changes nothing. -/
theorem flatten_map_filter {α : Type} (g : String → List α) (q : String → Bool)
    (h : ∀ t, q t = false → g t = []) :
    ∀ ts : List String, (ts.map g).flatten = ((ts.filter q).map g).flatten := by
  intro ts
  induction ts with
  | nil => rfl
  | cons t ts ih =>
    by_cases hq : q t = true
    · simp [List.filter_cons, hq, ih]
    · have hq' : q t = false := Bool.eq_false_iff.mpr hq
      simp [List.filter_cons, hq', h t hq', ih]

/-! ## Helper lemmas for the response parser -/

/-- When no line is a fence and the scanner is outside a code block, the
line loop of `parse_formal_specification` is the identity on its state. -/
theorem parse_foldl_no_fence :
    ∀ (lines : List String) (st : ParseState),
      (∀ l ∈ lines, startsWithStr l "```" = false) →
      st.in_code_block = false →
      lines.foldl parseLineStep st = st := by
  intro lines
  induction lines with
  | nil => intro st _ _; rfl
  | cons l ls ih =>
    intro st h hin
    have hl : startsWithStr l "```" = false := h l (List.mem_cons_self l ls)
    have hstep : parseLineStep st l = st := by
      simp [parseLineStep, hl, hin]
    rw [List.foldl_cons, hstep]
    exact ih st (fun l' hl' => h l' (List.mem_cons_of_mem l hl')) hin

/-! ## Helper lemmas on the association-list map -/

/-- Value lookups are unchanged by replacing the entries of a different
key: the core of `AMap.lookup_insert_ne` for the replace branch. -/
theorem lookup_map_replace (k' v k : String) (h : k' ≠ k) :
    ∀ ps : List (String × String),
      Option.map (fun p => p.2)
        (List.find? (fun p => p.1 = k)
          (List.map (fun p => if p.1 = k' then (k', v) else p) ps)) =
      Option.map (fun p => p.2) (List.find? (fun p => p.1 = k) ps) := by
  intro ps
  induction ps with
  | nil => rfl
  | cons q qs ih =>
    by_cases hq : q.1 = k'
    · have h1 : (decide (k' = k)) = false := by simp [h]
      have h2 : (decide (q.1 = k)) = false := by simp [hq, h]
      simp only [List.map_cons, hq, if_true, List.find?_cons, h1, h2]
      exact ih
    · simp only [List.map_cons, hq, if_false, List.find?_cons]
      by_cases hqk : q.1 = k
      · simp [hqk]
      · have h2 : (decide (q.1 = k)) = false := by simp [hqk]
        simp only [h2]
        exact ih

/-- Inserting under a different key does not change a lookup. -/
theorem AMap.lookup_insert_ne (m : AMap) (k' v k : String) (h : k' ≠ k) :
    (m.insert k' v).lookup k = m.lookup k := by
  unfold AMap.insert AMap.lookup
  by_cases hmem : (List.any m (fun p => p.1 = k') : Bool) = true
  · simp only [hmem, if_true]
    exact lookup_map_replace k' v k h m
  · have hmem' : (List.any m (fun p => p.1 = k') : Bool) = false :=
      Bool.eq_false_iff.mpr hmem
    simp only [hmem', Bool.false_eq_true, if_false, List.append_eq]
    rw [List.find?_append]
    have h2 : List.find? (fun p => decide (p.1 = k)) [(k', v)] = none := by
      simp [List.find?, h]
    cases hf : List.find? (fun p => decide (p.1 = k)) m <;> simp [hf, h2]

/-- Every key of the map after an insert is an old key or the inserted
key. -/
theorem AMap.mem_keys_insert (m : AMap) (k' v k : String)
    (h : k ∈ (m.insert k' v).keys) : k ∈ m.keys ∨ k = k' := by
  unfold AMap.insert AMap.keys at h
  unfold AMap.keys
  by_cases hmem : (List.any m (fun p => p.1 = k') : Bool) = true
  · simp only [hmem, if_true] at h
    rw [List.map_map] at h
    rcases List.mem_map.mp h with ⟨p, hp, hpk⟩
    by_cases hpk' : p.1 = k'
    · right
      simp only [Function.comp, hpk', if_true] at hpk
      exact hpk.symm
    · left
      simp only [Function.comp, hpk', if_false] at hpk
      exact List.mem_map.mpr ⟨p, hp, hpk⟩
  · have hmem' : (List.any m (fun p => p.1 = k') : Bool) = false :=
      Bool.eq_false_iff.mpr hmem
    simp only [hmem', Bool.false_eq_true, if_false, List.append_eq] at h
    rw [List.map_append] at h
    rcases List.mem_append.mp h with h1 | h1
    · exact Or.inl h1
    · right
      simpa using h1

/-- Inserting never shrinks the map. -/
theorem AMap.size_le_insert (m : AMap) (k v : String) :
    m.size ≤ (m.insert k v).size := by
  unfold AMap.insert AMap.size
  by_cases hmem : (List.any m (fun p => p.1 = k) : Bool) = true
  · simp [hmem]
  · simp [hmem]

/-! ## Helper lemmas on decimal numerals, for the synthetic component
names -/

/-- The digit-accumulator core of `Nat.repr` appends at least one digit
whenever it has fuel. -/
theorem toDigitsCore_len_ge :
    ∀ (f n : Nat) (ds : List Char), 0 < f →
      ds.length + 1 ≤ (Nat.toDigitsCore 10 f n ds).length := by
  intro f
  induction f with
  | zero => intro n ds h; exact absurd h (by omega)
  | succ f ih =>
    intro n ds _
    simp only [Nat.toDigitsCore]
    by_cases h : n / 10 = 0
    · simp [h]
    · simp only [h, if_false]
      cases f with
      | zero => simp [Nat.toDigitsCore]
      | succ g =>
        have := ih (n / 10) ((n % 10).digitChar :: ds) (Nat.succ_pos g)
        simp only [List.length_cons] at this
        omega

/-- A number with at least two decimal digits has a decimal numeral of
length at least two. -/
theorem repr_len_ge_two (n : Nat) (h : 10 ≤ n) : 2 ≤ (Nat.repr n).length := by
  have hdiv : n / 10 ≠ 0 := by
    have h1 : 1 ≤ n / 10 := (Nat.le_div_iff_mul_le (by norm_num)).mpr (by omega)
    omega
  unfold Nat.repr Nat.toDigits
  simp only [Nat.toDigitsCore, hdiv, if_false]
  have h2 := toDigitsCore_len_ge n (n / 10) [(n % 10).digitChar] (by omega)
  simp only [List.length_cons, List.length_nil] at h2
  simpa [String.length, List.asString] using h2

/-- No number from two upward has the numeral `"1"`. -/
theorem repr_ne_one (n : Nat) (h : 2 ≤ n) : Nat.repr n ≠ "1" := by
  by_cases hlt : n < 10
  · interval_cases n <;> decide
  · intro heq
    have := repr_len_ge_two n (by omega)
    rw [heq] at this
    simp [String.length] at this

/-- Synthetic component names never collide with the `"description"`
key. -/
theorem component_ne_description (s : String) : ("component_" ++ s) ≠ "description" := by
  intro h
  have h2 : ("component_" ++ s).data = "description".data := congrArg String.data h
  have h3 : ("component_" ++ s).data = 'c' :: ("omponent_".data ++ s.data) := rfl
  rw [h3] at h2
  have h4 : 'c' = 'd' := by
    have h5 := congrArg List.head? h2
    simp at h5
  exact absurd h4 (by decide)

/-- Synthetic component names numbered from two upward are never
`"component_1"`. -/
theorem component_ne_component_one (n : Nat) (h : 2 ≤ n) :
    ("component_" ++ Nat.repr n) ≠ "component_1" := by
  intro heq
  have h2 : ("component_" ++ Nat.repr n).data = "component_1".data :=
    congrArg String.data heq
  have h3 : ("component_" ++ Nat.repr n).data = "component_".data ++ (Nat.repr n).data := rfl
  have h4 : ("component_1" : String).data = "component_".data ++ ("1" : String).data := rfl
  rw [h3, h4] at h2
  have h5 : (Nat.repr n).data = ("1" : String).data := List.append_cancel_left h2
  have h6 : Nat.repr n = "1" := by
    calc Nat.repr n = ⟨(Nat.repr n).data⟩ := rfl
      _ = ⟨("1" : String).data⟩ := congrArg String.mk h5
      _ = "1" := rfl
  exact repr_ne_one n h h6

/-! ## Helper lemmas for credential lookup -/

/-- Every entry of the provider list maps its provider name to its
environment variable under `envVarFor`, and no entry's variable is the
`"UNKNOWN"` sentinel. -/
theorem providersList_envVarFor :
    ∀ pv ∈ providersList, envVarFor pv.1 = pv.2 ∧ pv.2 ≠ "UNKNOWN" := by
  decide

/-- A provider name is either unknown to `envVarFor` or its variable is
one of the provider list's variables. -/
theorem envVarFor_covered (lowered : String) :
    envVarFor lowered = "UNKNOWN" ∨ ∃ pv ∈ providersList, envVarFor lowered = pv.2 := by
  unfold envVarFor
  by_cases h1 : lowered = "openai"
  · exact Or.inr ⟨("openai", "OPENAI_API_KEY"), by simp [providersList], by simp [h1]⟩
  by_cases h2 : lowered = "anthropic"
  · exact Or.inr ⟨("anthropic", "ANTHROPIC_API_KEY"), by simp [providersList], by simp [h1, h2]⟩
  by_cases h3 : lowered = "azure"
  · exact Or.inr ⟨("azure", "AZURE_OPENAI_API_KEY"), by simp [providersList], by simp [h1, h2, h3]⟩
  by_cases h4 : lowered = "mistral"
  · exact Or.inr ⟨("mistral", "MISTRAL_API_KEY"), by simp [providersList], by simp [h1, h2, h3, h4]⟩
  by_cases h5 : lowered = "together"
  · exact Or.inr ⟨("together", "TOGETHER_API_KEY"), by simp [providersList],
      by simp [h1, h2, h3, h4, h5]⟩
  · exact Or.inl (by simp [h1, h2, h3, h4, h5])

/-- When the skipped provider has no credential anyway, the skipping
fallback loop of `get_api_key` behaves as a plain first-match search:
it errors exactly when no listed environment variable is set, and
otherwise returns the first provider whose variable is set. -/
theorem apiKeyLoop_characterize (env : String → Option String) (lowered : String) :
    ∀ l : List (String × String),
      (∀ pv ∈ l, pv.1 = lowered → env pv.2 = none) →
      (List.find? (fun pv => (env pv.2).isSome) l = none →
        apiKeyLoop env lowered l = .error (.missingApiKey "No API keys found for any provider")) ∧
      (∀ p v k, List.find? (fun pv => (env pv.2).isSome) l = some (p, v) → env v = some k →
        apiKeyLoop env lowered l = .ok (p, k)) := by
  intro l
  induction l with
  | nil =>
    intro _
    constructor
    · intro _; rfl
    · intro p v k hfind _
      simp [List.find?] at hfind
  | cons pv rest ih =>
    obtain ⟨p0, v0⟩ := pv
    intro hskip
    have hrest := ih (fun q hq => hskip q (List.mem_cons_of_mem _ hq))
    by_cases henv : (env v0).isSome = true
    · -- head has a credential
      have hne : p0 ≠ lowered := by
        intro heq
        have h0 := hskip (p0, v0) (List.mem_cons_self _ _) heq
        rw [h0] at henv
        simp at henv
      obtain ⟨k0, hk0⟩ := Option.isSome_iff_exists.mp henv
      have hfc : List.find? (fun pv => (env pv.2).isSome) ((p0, v0) :: rest) =
          some (p0, v0) := by
        simp [List.find?_cons, henv]
      have hloop : apiKeyLoop env lowered ((p0, v0) :: rest) = .ok (p0, k0) := by
        simp only [apiKeyLoop]
        rw [if_pos hne, hk0]
      constructor
      · intro hfind
        rw [hfc] at hfind
        exact absurd hfind (by simp)
      · intro p v k hfind hk
        rw [hfc] at hfind
        have hpv : p0 = p ∧ v0 = v := by
          have h1 : ((p0, v0) : String × String) = (p, v) := by simpa using hfind
          exact ⟨congrArg Prod.fst h1, congrArg Prod.snd h1⟩
        obtain ⟨hp, hv⟩ := hpv
        subst hp
        subst hv
        rw [hloop]
        rw [hk0] at hk
        simpa using hk
    · -- head has no credential: both sides skip it
      have henv' : (env v0).isSome = false := Bool.eq_false_iff.mpr henv
      have hv0 : env v0 = none := by
        cases he : env v0 with
        | none => rfl
        | some x => rw [he] at henv'; simp at henv'
      have hloop : apiKeyLoop env lowered ((p0, v0) :: rest) =
          apiKeyLoop env lowered rest := by
        simp only [apiKeyLoop]
        by_cases hne : p0 ≠ lowered
        · rw [if_pos hne, hv0]
        · rw [if_neg hne]
      have hfc : List.find? (fun pv => (env pv.2).isSome) ((p0, v0) :: rest) =
          List.find? (fun pv => (env pv.2).isSome) rest := by
        simp [List.find?_cons, henv']
      rw [hfc, hloop]
      exact hrest

/-! ## Invariant lemmas for the response parser's component map -/

/-- A synthetic name is never the description key. -/
theorem NFName.ne_description {name : String} (h : NFName name) : name ≠ "description" := by
  obtain ⟨n, _, he⟩ := h
  rw [he]
  exact component_ne_description _

/-- One line-loop step preserves the component-map invariant. -/
theorem parseLineStep_inv (content : String) (st : ParseState) (line : String)
    (h : ParseInv content st) : ParseInv content (parseLineStep st line) := by
  obtain ⟨h1, h2, h3, h4, h5⟩ := h
  by_cases hf : startsWithStr line "```" = true
  · by_cases hb : st.in_code_block = true
    · -- closing fence
      by_cases hcc : st.current_component = ""
      · have hstep : parseLineStep st line =
            { components := st.components, in_code_block := false,
              extracted_code := st.extracted_code, current_component := st.current_component,
              current_component_name := st.current_component_name } := by
          simp [parseLineStep, hf, hb, hcc]
        rw [hstep]
        exact ⟨h1, h2, h3, h4, fun hc => absurd hcc hc⟩
      · have hNF : NFName st.current_component_name := h5 hcc
        have hnd : st.current_component_name ≠ "description" := hNF.ne_description
        have hstep : parseLineStep st line =
            { components := st.components.insert st.current_component_name
                st.current_component,
              in_code_block := false, extracted_code := st.extracted_code,
              current_component := "",
              current_component_name := st.current_component_name } := by
          simp [parseLineStep, hf, hb, hcc]
        rw [hstep]
        refine ⟨?_, ?_, ?_, h4, fun hc => absurd rfl hc⟩
        · rw [AMap.lookup_insert_ne _ _ _ _ hnd]
          exact h1
        · exact le_trans h2 (AMap.size_le_insert _ _ _)
        · intro k hk
          rcases AMap.mem_keys_insert _ _ _ _ hk with hk1 | hk2
          · exact h3 k hk1
          · exact Or.inr (hk2 ▸ hNF)
    · -- opening fence
      by_cases hlen : 3 < line.length
      · have hstep : parseLineStep st line =
            { components := st.components, in_code_block := true,
              extracted_code := st.extracted_code, current_component := st.current_component,
              current_component_name := "component_" ++ Nat.repr (st.components.size + 1) } := by
          simp [parseLineStep, hf, hb, hlen]
        rw [hstep]
        have hNF : NFName ("component_" ++ Nat.repr (st.components.size + 1)) :=
          ⟨st.components.size + 1, by omega, rfl⟩
        exact ⟨h1, h2, h3, Or.inr hNF, fun _ => hNF⟩
      · have hstep : parseLineStep st line =
            { components := st.components, in_code_block := true,
              extracted_code := st.extracted_code, current_component := st.current_component,
              current_component_name := st.current_component_name } := by
          simp [parseLineStep, hf, hb, hlen]
        rw [hstep]
        exact ⟨h1, h2, h3, h4, h5⟩
  · by_cases hb : st.in_code_block = true
    · by_cases hname : st.current_component_name = ""
      · have hstep : parseLineStep st line =
            { st with extracted_code := st.extracted_code ++ line ++ "\n" } := by
          simp [parseLineStep, hf, hb, hname]
        rw [hstep]
        exact ⟨h1, h2, h3, h4, h5⟩
      · have hNF : NFName st.current_component_name := by
          rcases h4 with h4' | h4'
          · exact absurd h4' hname
          · exact h4'
        have hstep : parseLineStep st line =
            { st with current_component := st.current_component ++ line ++ "\n",
                      extracted_code := st.extracted_code ++ line ++ "\n" } := by
          simp [parseLineStep, hf, hb, hname]
        rw [hstep]
        exact ⟨h1, h2, h3, h4, fun _ => hNF⟩
    · have hstep : parseLineStep st line = st := by
        simp [parseLineStep, hf, hb]
      rw [hstep]
      exact ⟨h1, h2, h3, h4, h5⟩

/-- The whole line loop preserves the component-map invariant. -/
theorem parse_foldl_inv (content : String) :
    ∀ (lines : List String) (st : ParseState), ParseInv content st →
      ParseInv content (lines.foldl parseLineStep st) := by
  intro lines
  induction lines with
  | nil => intro st h; exact h
  | cons l ls ih =>
    intro st h
    rw [List.foldl_cons]
    exact ih _ (parseLineStep_inv content st l h)

/-- The initial state satisfies the component-map invariant. -/
theorem parse_inv_init (content : String) :
    ParseInv content
      { components := AMap.insert [] "description" content, in_code_block := false,
        extracted_code := "", current_component := "", current_component_name := "" } := by
  have hmap : AMap.insert [] "description" content = [("description", content)] := by
    simp [AMap.insert]
  refine ⟨?_, ?_, ?_, Or.inl rfl, fun hc => absurd rfl hc⟩
  · rw [hmap]
    simp [AMap.lookup, List.find?]
  · rw [hmap]
    simp [AMap.size]
  · intro k hk
    rw [hmap] at hk
    simp [AMap.keys] at hk
    exact Or.inl hk

/-- The component map of a parsed answer satisfies the description and
naming invariants. -/
theorem parse_components_inv (content : String) (lang : VerificationLanguage) :
    (parse_formal_specification content lang).components.lookup "description"
        = some content ∧
      (∀ k ∈ (parse_formal_specification content lang).components.keys,
        k = "description" ∨ NFName k) := by
  have hinv := parse_foldl_inv content (rustLines content) _ (parse_inv_init content)
  obtain ⟨h1, _, h3, h4, h5⟩ := hinv
  show (let st := (rustLines content).foldl parseLineStep
          { components := AMap.insert [] "description" content, in_code_block := false,
            extracted_code := "", current_component := "", current_component_name := "" }
        let comps :=
          if st.current_component ≠ "" && st.current_component_name ≠ "" then
            st.components.insert st.current_component_name st.current_component
          else st.components
        comps.lookup "description" = some content ∧
          ∀ k ∈ comps.keys, k = "description" ∨ NFName k)
  set st := (rustLines content).foldl parseLineStep
    { components := AMap.insert [] "description" content, in_code_block := false,
      extracted_code := "", current_component := "", current_component_name := "" } with hst
  by_cases hc : (st.current_component ≠ "" && st.current_component_name ≠ "") = true
  · have hcc : st.current_component ≠ "" := by
      have hc2 := hc
      rw [Bool.and_eq_true] at hc2
      simpa using hc2.1
    have hNF : NFName st.current_component_name := h5 hcc
    have hnd : st.current_component_name ≠ "description" := hNF.ne_description
    simp only [hc, if_true]
    constructor
    · rw [AMap.lookup_insert_ne _ _ _ _ hnd]
      exact h1
    · intro k hk
      rcases AMap.mem_keys_insert _ _ _ _ hk with hk1 | hk2
      · exact h3 k hk1
      · exact Or.inr (hk2 ▸ hNF)
  · simp only [hc]
    exact ⟨h1, h3⟩

/-- One line-loop step preserves the no-tag state when the line is not a
tagged opening fence. -/
theorem parseLineStep_noTag (content : String) (st : ParseState) (line : String)
    (hl : ¬(startsWithStr line "```" = true ∧ 3 < line.length))
    (h : NoTagState content st) : NoTagState content (parseLineStep st line) := by
  obtain ⟨hn, hc, hm⟩ := h
  by_cases hf : startsWithStr line "```" = true
  · have hlen : ¬3 < line.length := fun hlt => hl ⟨hf, hlt⟩
    have hstep : parseLineStep st line =
        { components := st.components, in_code_block := !st.in_code_block,
          extracted_code := st.extracted_code, current_component := st.current_component,
          current_component_name := st.current_component_name } := by
      simp [parseLineStep, hf, hc, hlen]
    rw [hstep]
    exact ⟨hn, hc, hm⟩
  · by_cases hb : st.in_code_block = true
    · have hstep : parseLineStep st line =
          { st with extracted_code := st.extracted_code ++ line ++ "\n" } := by
        simp [parseLineStep, hf, hb, hn]
      rw [hstep]
      exact ⟨hn, hc, hm⟩
    · have hstep : parseLineStep st line = st := by
        simp [parseLineStep, hf, hb]
      rw [hstep]
      exact ⟨hn, hc, hm⟩

/-- The whole line loop preserves the no-tag state on answers without
tagged fences. -/
theorem parse_foldl_noTag (content : String) :
    ∀ (lines : List String) (st : ParseState),
      (∀ l ∈ lines, ¬(startsWithStr l "```" = true ∧ 3 < l.length)) →
      NoTagState content st →
      NoTagState content (lines.foldl parseLineStep st) := by
  intro lines
  induction lines with
  | nil => intro st _ h; exact h
  | cons l ls ih =>
    intro st hall h
    rw [List.foldl_cons]
    exact ih _ (fun l' hl' => hall l' (List.mem_cons_of_mem l hl'))
      (parseLineStep_noTag content st l (hall l (List.mem_cons_self l ls)) h)

/-- Without tagged fences, parsing stores only the description entry. -/
theorem parse_components_noTag (content : String) (lang : VerificationLanguage)
    (hall : ∀ l ∈ rustLines content, ¬(startsWithStr l "```" = true ∧ 3 < l.length)) :
    (parse_formal_specification content lang).components = [("description", content)] := by
  have hinit : NoTagState content
      { components := AMap.insert [] "description" content, in_code_block := false,
        extracted_code := "", current_component := "", current_component_name := "" } := by
    refine ⟨rfl, rfl, ?_⟩
    simp [AMap.insert]
  have hfin := parse_foldl_noTag content (rustLines content) _ hall hinit
  obtain ⟨hn, hc, hm⟩ := hfin
  show (let st := (rustLines content).foldl parseLineStep
          { components := AMap.insert [] "description" content, in_code_block := false,
            extracted_code := "", current_component := "", current_component_name := "" }
        let comps :=
          if st.current_component ≠ "" && st.current_component_name ≠ "" then
            st.components.insert st.current_component_name st.current_component
          else st.components
        comps = [("description", content)])
  set st := (rustLines content).foldl parseLineStep
    { components := AMap.insert [] "description" content, in_code_block := false,
      extracted_code := "", current_component := "", current_component_name := "" } with hst
  have hcond : (st.current_component ≠ "" && st.current_component_name ≠ "") = false := by
    simp [hc]
  simp only [hcond, Bool.false_eq_true, if_false]
  exact hm

/-! ## Equation lemmas for the repair loop -/

/-- Unfolding of a loop iteration of `fixLoopAux` with remaining budget. -/
theorem fixLoopAux_step {E : Type} (oc : FixOracles E) (attempt rem : Nat)
    (spec : Specification) (report : ValidationReport) :
    fixLoopAux oc attempt (rem + 1) spec report =
      match oc.fixO attempt spec report with
      | .error e => .error e
      | .ok fixed_spec =>
        match oc.valO attempt (chooseRevalidationDepth report) fixed_spec with
        | .error e => .error e
        | .ok new_report =>
          if new_report.is_valid then
            .ok { new_report with
                  issues := new_report.issues ++ [fixedAfterIssue attempt fixed_spec] }
          else
            fixLoopAux oc (attempt + 1) rem fixed_spec new_report := rfl

/-- Unfolding of `fixLoopAux` with an exhausted budget. -/
theorem fixLoopAux_zero {E : Type} (oc : FixOracles E) (attempt : Nat)
    (spec : Specification) (report : ValidationReport) :
    fixLoopAux oc attempt 0 spec report =
      .ok { report with issues := report.issues ++ [retriesExhaustedIssue spec] } := rfl

/-- The Bool produced by the `matches!`-style severity test is true exactly
for `Error` severity. -/
theorem severity_match_eq (s : IssueSeverity) :
    ((match s with | IssueSeverity.error => true | _ => false) = true) ↔
      s = IssueSeverity.error := by
  cases s <;> simp

/-! ## Claim theorems -/

/-- Claim C1, counterexample: with an initial Basic validation returning an
invalid report and a fixer that fails with a Model Gateway error, the
repair operation itself fails with that error, yet `validate_specification`
returns `Ok` with the original report — the gateway error that occurred
during the auto-repair phase is swallowed into a successful return instead
of propagating to the caller as an error result. -/
theorem claim_C1_counterexample :
    fix_specification_with_retry ocErrX specX reportInvalid = .error errX ∧
    validate_specification ocErrX specX ValidationDepth.basic = .ok reportInvalid ∧
    reportInvalid.is_valid = false :=
  ⟨rfl, rfl, rfl⟩

/-- Claim C1, amended: a Model Gateway error during repair propagates as an
error result of `fix_specification_with_retry` itself; but
`validate_specification` catches a repair error and returns the original
pre-repair validation report as a successful result, so the error does not
propagate to the caller of the validation operation. -/
theorem claim_C1_amended :
    (∀ (E : Type) (oc : FixOracles E) (spec : Specification)
       (report : ValidationReport) (e : E),
      report.is_valid = false → oc.fixO 1 spec report = .error e →
      fix_specification_with_retry oc spec report = .error e) ∧
    (∀ (E : Type) (oc : FixOracles E) (spec : Specification)
       (depth : ValidationDepth) (report : ValidationReport) (e : E),
      oc.valO 0 depth spec = .ok report → report.is_valid = false →
      fix_specification_with_retry oc spec report = .error e →
      validate_specification oc spec depth = .ok report) := by
  constructor
  · intro E oc spec report e hinv hfix
    unfold fix_specification_with_retry
    simp only [hinv, Bool.false_eq_true, if_false]
    rw [show (3 : Nat) = 2 + 1 from rfl, fixLoopAux_step, hfix]
  · intro E oc spec depth report e hval0 hinv hfixerr
    unfold validate_specification
    rw [hval0]
    simp only [hinv, Bool.false_eq_true, if_false]
    rw [hfixerr]

/-- Claim C1, witness for the amended statement at concrete stub
oracles. -/
theorem claim_C1_witness :
    fix_specification_with_retry ocErrX specX reportInvalid = .error errX ∧
    validate_specification ocErrX specX ValidationDepth.basic = .ok reportInvalid := by
  constructor
  · exact claim_C1_amended.1 AxiomError ocErrX specX reportInvalid errX rfl rfl
  · exact claim_C1_amended.2 AxiomError ocErrX specX ValidationDepth.basic reportInvalid
      errX rfl rfl (claim_C1_amended.1 AxiomError ocErrX specX reportInvalid errX rfl rfl)

/-- Claim C2: when the initial report is invalid and every re-validation
during repair again reports invalid, `fix_specification_with_retry`
performs exactly three repair attempts (the result is built from the third
attempt's data and is independent of the oracles at any later index) and
returns the last attempt's report augmented with one Warning issue whose
suggested fix is `some` of the last attempted specification's code. -/
theorem claim_C2 :
    ∀ (E : Type) (oc : FixOracles E) (spec : Specification)
      (report : ValidationReport) (s1 s2 s3 : Specification)
      (r1 r2 r3 : ValidationReport),
      report.is_valid = false →
      oc.fixO 1 spec report = .ok s1 →
      oc.valO 1 (chooseRevalidationDepth report) s1 = .ok r1 →
      r1.is_valid = false →
      oc.fixO 2 s1 r1 = .ok s2 →
      oc.valO 2 (chooseRevalidationDepth r1) s2 = .ok r2 →
      r2.is_valid = false →
      oc.fixO 3 s2 r2 = .ok s3 →
      oc.valO 3 (chooseRevalidationDepth r2) s3 = .ok r3 →
      r3.is_valid = false →
      fix_specification_with_retry oc spec report =
        .ok { r3 with issues := r3.issues ++ [retriesExhaustedIssue s3] } ∧
      (retriesExhaustedIssue s3).severity = IssueSeverity.warning ∧
      (retriesExhaustedIssue s3).suggested_fix = some s3.formal_spec.spec_code := by
  intro E oc spec report s1 s2 s3 r1 r2 r3 h0 hf1 hv1 hi1 hf2 hv2 hi2 hf3 hv3 hi3
  refine ⟨?_, rfl, rfl⟩
  unfold fix_specification_with_retry
  simp only [h0, Bool.false_eq_true, if_false]
  rw [show (3 : Nat) = 2 + 1 from rfl, fixLoopAux_step]
  simp only [hf1, hv1, hi1, Bool.false_eq_true, if_false]
  rw [show (2 : Nat) = 1 + 1 from rfl, fixLoopAux_step]
  simp only [hf2, hv2, hi2, Bool.false_eq_true, if_false]
  rw [show (1 : Nat) = 0 + 1 from rfl, fixLoopAux_step]
  simp only [hf3, hv3, hi3, Bool.false_eq_true, if_false]
  rw [fixLoopAux_zero, hi3]

/-- Claim C2, witness: a validator stub that always reports invalid yields
exactly three attempts and the Warning-augmented final report carrying the
third attempt's code. -/
theorem claim_C2_witness :
    fix_specification_with_retry ocAlwaysInvalid specX reportInvalid =
      .ok { reportInvalid with
            issues := reportInvalid.issues ++
              [retriesExhaustedIssue (fixStep (fixStep (fixStep specX)))] } :=
  (claim_C2 AxiomError ocAlwaysInvalid specX reportInvalid
    (fixStep specX) (fixStep (fixStep specX)) (fixStep (fixStep (fixStep specX)))
    reportInvalid reportInvalid reportInvalid
    rfl rfl rfl rfl rfl rfl rfl rfl rfl rfl).1

/-- Claim C3: once the repair loop is entered (invalid initial report), an
attempt whose re-validation reports valid terminates the loop immediately
— the result is fixed by the oracles up to that attempt and ignores the
remaining budget — and equals the valid report with one appended Info
issue stating the specification was fixed after that many attempts, whose
suggested fix is `some` of the fixed specification's code. -/
theorem claim_C3 :
    (∀ (E : Type) (oc : FixOracles E) (spec : Specification)
       (report : ValidationReport),
      report.is_valid = false →
      fix_specification_with_retry oc spec report = fixLoopAux oc 1 3 spec report) ∧
    (∀ (E : Type) (oc : FixOracles E) (attempt rem : Nat) (spec : Specification)
       (report : ValidationReport) (s' : Specification) (r' : ValidationReport),
      oc.fixO attempt spec report = .ok s' →
      oc.valO attempt (chooseRevalidationDepth report) s' = .ok r' →
      r'.is_valid = true →
      fixLoopAux oc attempt (rem + 1) spec report =
        .ok { r' with issues := r'.issues ++ [fixedAfterIssue attempt s'] } ∧
      (fixedAfterIssue attempt s').severity = IssueSeverity.info ∧
      (fixedAfterIssue attempt s').message =
        "Specification was automatically fixed after " ++ Nat.repr attempt
          ++ " attempts" ∧
      (fixedAfterIssue attempt s').suggested_fix = some s'.formal_spec.spec_code) := by
  constructor
  · intro E oc spec report h0
    unfold fix_specification_with_retry
    simp only [h0, Bool.false_eq_true, if_false]
  · intro E oc attempt rem spec report s' r' hfix hval hvalid
    refine ⟨?_, rfl, rfl, rfl⟩
    rw [fixLoopAux_step]
    simp only [hfix, hval, hvalid, if_true]

/-- Claim C3, witness: a validator stub invalid at attempt 1 and valid at
attempt 2 stops after attempt 2 with the Info-augmented valid report. -/
theorem claim_C3_witness :
    fix_specification_with_retry ocValidAt2 specX reportInvalid =
      .ok { reportValid with
            issues := reportValid.issues ++
              [fixedAfterIssue 2 (fixStep (fixStep specX))] } :=
  (claim_C3.2 AxiomError ocValidAt2 2 1 (fixStep specX) reportInvalid
    (fixStep (fixStep specX)) reportValid rfl rfl rfl).1

/-- Claim C8: inside the repair loop, the re-validation depth chosen for an
attempt is `TypeCheck` exactly when some issue of the previous report has
`Error` severity and a message containing the substring `"type"`, and
`Basic` otherwise (`chooseRevalidationDepth` is the depth `fixLoopAux`
passes to each re-validation). -/
theorem claim_C8 :
    ∀ report : ValidationReport,
      (chooseRevalidationDepth report = ValidationDepth.typeCheck ↔
        ∃ i ∈ report.issues,
          i.severity = IssueSeverity.error ∧ rustContains i.message "type" = true) ∧
      (chooseRevalidationDepth report = ValidationDepth.basic ↔
        ¬∃ i ∈ report.issues,
          i.severity = IssueSeverity.error ∧ rustContains i.message "type" = true) := by
  intro report
  unfold chooseRevalidationDepth
  by_cases h : (report.issues.any fun i =>
      (match i.severity with | IssueSeverity.error => true | _ => false) &&
      rustContains i.message "type") = true
  · rw [if_pos h]
    have hex : ∃ i ∈ report.issues,
        i.severity = IssueSeverity.error ∧ rustContains i.message "type" = true := by
      rcases List.any_eq_true.mp h with ⟨i, hi, hcond⟩
      rw [Bool.and_eq_true] at hcond
      exact ⟨i, hi, (severity_match_eq _).mp hcond.1, hcond.2⟩
    exact ⟨⟨fun _ => hex, fun _ => rfl⟩,
      ⟨fun hb => absurd hb (by decide), fun hn => absurd hex hn⟩⟩
  · rw [if_neg h]
    have hnex : ¬∃ i ∈ report.issues,
        i.severity = IssueSeverity.error ∧ rustContains i.message "type" = true := by
      rintro ⟨i, hi, hs, hc⟩
      exact h (List.any_eq_true.mpr ⟨i, hi, by
        rw [Bool.and_eq_true]
        exact ⟨(severity_match_eq _).mpr hs, hc⟩⟩)
    exact ⟨⟨fun hb => absurd hb (by decide), fun hex => absurd hex hnex⟩,
      ⟨fun _ => hnex, fun _ => rfl⟩⟩

/-- Claim C4, counterexample: with the template `{{a}}` and parameter map
`a ↦ "{{b}}", b ↦ "X"` iterated in that order, the `{{b}}` token contained
in parameter `a`'s replacement value is expanded by the later substitution
of `b`, so the result is `"X"` — replacement values' `{{...}}` tokens are
not always left unexpanded (the `HashMap` iteration order is unspecified,
so this order is a possible execution). -/
theorem claim_C4_counterexample :
    render_template [("t", "{{a}}")] "t" [("a", "{{b}}"), ("b", "X")] = .ok "X" := rfl

/-- Claim C4, amended: `render_template` fails with a template-not-found
error exactly when the named template is absent; otherwise it substitutes
the parameters sequentially in the map's iteration order, each substitution
replacing every occurrence of `{{name}}` present at that point, left to
right, without rescanning the inserted value (a string without occurrences
is unchanged); a replacement value's `{{...}}` tokens are not expanded by
its own substitution, but are expanded when a parameter of that name is
substituted later in the iteration order. -/
theorem claim_C4_amended :
    (∀ (templates : AMap) (name : String) (params : List (String × String)),
      (render_template templates name params =
          .error (.templateError ("Template not found: " ++ name)) ↔
        AMap.lookup templates name = none)) ∧
    (∀ (templates : AMap) (name : String) (params : List (String × String))
       (t : String),
      AMap.lookup templates name = some t →
      render_template templates name params = .ok (applyParams t params)) ∧
    (∀ s pat rep : String, rustContains s pat = false → rustReplace s pat rep = s) ∧
    (∀ pat rest rep : String, pat ≠ "" →
      rustReplace (pat ++ rest) pat rep = rep ++ rustReplace rest pat rep) ∧
    render_template [("t", "{{a}}")] "t" [("b", "X"), ("a", "{{b}}")] = .ok "{{b}}" := by
  refine ⟨?_, ?_, rustReplace_of_not_contains, rustReplace_head, rfl⟩
  · intro templates name params
    unfold render_template
    cases hlk : get_template templates name with
    | none =>
      unfold get_template at hlk
      simp [hlk]
    | some t =>
      unfold get_template at hlk
      constructor
      · intro he
        exact absurd he (by simp)
      · intro hn
        rw [hlk] at hn
        exact absurd hn (by simp)
  · intro templates name params t hlk
    unfold render_template get_template
    rw [show templates.lookup name = some t from hlk]

/-- Claim C4, witness for the amended statement: a present template
renders, and a pattern-free string is unchanged by `replace`. -/
theorem claim_C4_witness :
    render_template [("t", "A {{x}}")] "t" [("x", "B")] =
      .ok (applyParams "A {{x}}" [("x", "B")]) ∧
    rustReplace "hello" "zz" "q" = "hello" :=
  ⟨claim_C4_amended.2.1 [("t", "A {{x}}")] "t" [("x", "B")] "A {{x}}" rfl,
   claim_C4_amended.2.2.1 "hello" "zz" "q" (by decide)⟩

/-- Claim C5: on any source text whose trimmed lines starting with an
F*-notation prefix (`open `, `include `, `module `) are exactly
`open Foo` and `open Bar.Baz` in that order, `extract_dependencies` for
the F* language returns exactly `["Foo", "Bar.Baz"]` in source order. -/
theorem claim_C5 :
    ∀ content : String,
      ((rustLines content).map trimStr).filter
          (fun t => (depPatterns VerificationLanguage.fStarLang).any
            (fun p => startsWithStr t p)) =
        ["open Foo", "open Bar.Baz"] →
      extract_dependencies content VerificationLanguage.fStarLang = ["Foo", "Bar.Baz"] := by
  intro content h
  unfold extract_dependencies
  have hq : ∀ t : String,
      ((depPatterns VerificationLanguage.fStarLang).any
        (fun p => startsWithStr t p)) = false →
      depsOfLine t (depPatterns VerificationLanguage.fStarLang) = [] := by
    intro t ht
    apply depsOfLine_eq_nil
    intro p hp
    by_contra hc
    have hp' : startsWithStr t p = true := by
      cases hsw : startsWithStr t p with
      | true => rfl
      | false => exact absurd hsw hc
    have := List.any_eq_true.mpr ⟨p, hp, hp'⟩
    rw [ht] at this
    exact absurd this (by simp)
  show ((rustLines content).map
      (fun line => depsOfLine (trimStr line)
        (depPatterns VerificationLanguage.fStarLang))).flatten = ["Foo", "Bar.Baz"]
  have hmm : (rustLines content).map
      (fun line => depsOfLine (trimStr line) (depPatterns VerificationLanguage.fStarLang)) =
      ((rustLines content).map trimStr).map
        (fun t => depsOfLine t (depPatterns VerificationLanguage.fStarLang)) := by
    rw [List.map_map]
    rfl
  rw [hmm]
  rw [flatten_map_filter
    (fun t => depsOfLine t (depPatterns VerificationLanguage.fStarLang))
    (fun t => (depPatterns VerificationLanguage.fStarLang).any (fun p => startsWithStr t p))
    hq ((rustLines content).map trimStr)]
  rw [h]
  rfl

/-- Claim C5, witness at a concrete three-line source. -/
theorem claim_C5_witness :
    extract_dependencies "open Foo\nlet x = 1\nopen Bar.Baz"
      VerificationLanguage.fStarLang = ["Foo", "Bar.Baz"] :=
  claim_C5 "open Foo\nlet x = 1\nopen Bar.Baz" rfl

/-- Claim C6: `parse_formal_specification` is total and returns `Ok` for
every input (fence balance cannot make it fail); when no line is a fence
the resulting code is the entire input, and for every non-empty input the
resulting code is non-empty. -/
theorem claim_C6 :
    ∀ (content : String) (lang : VerificationLanguage),
      parseFormalSpecificationRes content lang =
        .ok (parse_formal_specification content lang) ∧
      ((∀ l ∈ rustLines content, startsWithStr l "```" = false) →
        (parse_formal_specification content lang).spec_code = content) ∧
      (content ≠ "" → (parse_formal_specification content lang).spec_code ≠ "") := by
  intro content lang
  have hcode : (parse_formal_specification content lang).spec_code =
      (if ((rustLines content).foldl parseLineStep
            { components := AMap.insert [] "description" content, in_code_block := false,
              extracted_code := "", current_component := "",
              current_component_name := "" }).extracted_code = "" then content
       else ((rustLines content).foldl parseLineStep
            { components := AMap.insert [] "description" content, in_code_block := false,
              extracted_code := "", current_component := "",
              current_component_name := "" }).extracted_code) := rfl
  refine ⟨rfl, ?_, ?_⟩
  · intro hall
    have hfold := parse_foldl_no_fence (rustLines content)
      { components := AMap.insert [] "description" content, in_code_block := false,
        extracted_code := "", current_component := "", current_component_name := "" }
      hall rfl
    rw [hcode, hfold]
    simp
  · intro hne
    rw [hcode]
    by_cases hec : ((rustLines content).foldl parseLineStep
        { components := AMap.insert [] "description" content, in_code_block := false,
          extracted_code := "", current_component := "",
          current_component_name := "" }).extracted_code = ""
    · rw [if_pos hec]
      exact hne
    · rw [if_neg hec]
      exact hec

/-- Claim C6, witness: a fence-free input round-trips as the code, and the
single unbalanced fence line `"```"` still yields non-empty code. -/
theorem claim_C6_witness :
    (parse_formal_specification "hello world" VerificationLanguage.fStarLang).spec_code
        = "hello world" ∧
      (parse_formal_specification "```" VerificationLanguage.fStarLang).spec_code ≠ "" :=
  ⟨(claim_C6 "hello world" VerificationLanguage.fStarLang).2.1 (by decide),
   (claim_C6 "```" VerificationLanguage.fStarLang).2.2 (by decide)⟩

/-- Claim C7: the Basic-depth syntax review sets `is_valid` to true exactly
when the lowercased answer contains one of the two fixed verdict phrases;
the verdict is a function of the whole answer text alone, so it can be
true while an Error-severity issue is listed (witnessed by a concrete
answer). -/
theorem claim_C7 :
    (∀ response : String,
      (parseSyntaxResponse response).is_valid =
        (rustContains (toLowerStr response) "the specification syntax is valid: true" ||
         rustContains (toLowerStr response) "is the specification syntax valid? true")) ∧
    (parseSyntaxResponse
        "Line 3: bad - Error\nthe specification syntax is valid: true").is_valid = true ∧
    ∃ i ∈ (parseSyntaxResponse
        "Line 3: bad - Error\nthe specification syntax is valid: true").issues,
      i.severity = IssueSeverity.error :=
  ⟨fun _ => rfl, rfl, by decide⟩

/-- Claim C7, witness: the verdict characterization applied to a concrete
answer without any verdict phrase. -/
theorem claim_C7_witness :
    (parseSyntaxResponse "no verdict here").is_valid =
      (rustContains (toLowerStr "no verdict here")
          "the specification syntax is valid: true" ||
        rustContains (toLowerStr "no verdict here")
          "is the specification syntax valid? true") :=
  claim_C7.1 "no verdict here"

/-- Claim C8, witness: a report with an Error-severity issue whose message
contains `"type"` escalates re-validation to `TypeCheck`. -/
theorem claim_C8_witness :
    chooseRevalidationDepth
      { is_valid := false,
        issues := [{ severity := IssueSeverity.error, message := "Line 1: type mismatch",
                     related_property := none, line_number := some 1,
                     suggested_fix := none }],
        tool_validated := false, tool_output := none } = ValidationDepth.typeCheck :=
  (claim_C8 _).1.mpr (by decide)

/-- Reduction of `get_api_key` without a configured key to the preferred
environment check followed by the provider loop. -/
theorem get_api_key_none (env : String → Option String) (preferred : String) :
    get_api_key none env preferred =
      match (if envVarFor (toLowerStr preferred) ≠ "UNKNOWN"
             then env (envVarFor (toLowerStr preferred)) else none) with
      | some key => .ok (preferred, key)
      | none => apiKeyLoop env (toLowerStr preferred) providersList := rfl

/-- When the preferred provider's environment source is unavailable, every
provider-list entry named like the preferred provider has no credential. -/
theorem hskip_of_preferred_none (env : String → Option String) (preferred : String)
    (hpre : envVarFor (toLowerStr preferred) = "UNKNOWN" ∨
      env (envVarFor (toLowerStr preferred)) = none) :
    ∀ pv ∈ providersList, pv.1 = toLowerStr preferred → env pv.2 = none := by
  intro pv hpv heq
  have hvar := providersList_envVarFor pv hpv
  rcases hpre with hu | hn
  · exfalso
    apply hvar.2
    rw [← hvar.1, heq]
    exact hu
  · have hv2 : pv.2 = envVarFor (toLowerStr preferred) := by rw [← hvar.1, heq]
    rw [hv2]
    exact hn

/-- Claim C9: `get_api_key` returns the configured key paired with the
preferred provider when one is set; otherwise the preferred provider's
environment credential when present; otherwise the first provider of the
fixed declaration-order list whose environment credential is present; and
it fails with the missing-API-key error exactly when no listed environment
credential exists (the configured-key case never fails). -/
theorem claim_C9 :
    (∀ (env : String → Option String) (preferred k : String),
      get_api_key (some k) env preferred = .ok (preferred, k)) ∧
    (∀ (env : String → Option String) (preferred k : String),
      envVarFor (toLowerStr preferred) ≠ "UNKNOWN" →
      env (envVarFor (toLowerStr preferred)) = some k →
      get_api_key none env preferred = .ok (preferred, k)) ∧
    (∀ (env : String → Option String) (preferred p v k : String),
      (envVarFor (toLowerStr preferred) = "UNKNOWN" ∨
        env (envVarFor (toLowerStr preferred)) = none) →
      List.find? (fun pv => (env pv.2).isSome) providersList = some (p, v) →
      env v = some k →
      get_api_key none env preferred = .ok (p, k)) ∧
    (∀ (env : String → Option String) (preferred : String),
      get_api_key none env preferred =
          .error (.missingApiKey "No API keys found for any provider") ↔
        ∀ pv ∈ providersList, env pv.2 = none) := by
  refine ⟨fun _ _ _ => rfl, ?_, ?_, ?_⟩
  · intro env preferred k h1 h2
    rw [get_api_key_none, if_pos h1, h2]
  · intro env preferred p v k hpre hfind henv
    rw [get_api_key_none]
    have hbranch : (if envVarFor (toLowerStr preferred) ≠ "UNKNOWN"
        then env (envVarFor (toLowerStr preferred)) else none) = none := by
      rcases hpre with hu | hn
      · rw [if_neg (by simp [hu])]
      · by_cases hne : envVarFor (toLowerStr preferred) ≠ "UNKNOWN"
        · rw [if_pos hne]; exact hn
        · rw [if_neg hne]
    rw [hbranch]
    exact (apiKeyLoop_characterize env (toLowerStr preferred) providersList
      (hskip_of_preferred_none env preferred hpre)).2 p v k hfind henv
  · intro env preferred
    constructor
    · intro herr
      intro pv hpv
      by_contra hne
      obtain ⟨kk, hkk⟩ : ∃ kk, env pv.2 = some kk := by
        cases he : env pv.2 with
        | none => exact absurd he hne
        | some x => exact ⟨x, rfl⟩
      obtain ⟨⟨p, v⟩, hfq⟩ : ∃ q, List.find? (fun q => (env q.2).isSome) providersList
          = some q := by
        cases hf : List.find? (fun q => (env q.2).isSome) providersList with
        | none =>
          have := List.find?_eq_none.mp hf pv hpv
          simp [hkk] at this
        | some q => exact ⟨q, rfl⟩
      have hvsome : (env v).isSome = true := by
        have := List.find?_some hfq
        simpa using this
      obtain ⟨kv, hkv⟩ := Option.isSome_iff_exists.mp hvsome
      rw [get_api_key_none] at herr
      cases hbr : (if envVarFor (toLowerStr preferred) ≠ "UNKNOWN"
          then env (envVarFor (toLowerStr preferred)) else none) with
      | some key =>
        rw [hbr] at herr
        exact absurd herr (by simp)
      | none =>
        rw [hbr] at herr
        have hpre : envVarFor (toLowerStr preferred) = "UNKNOWN" ∨
            env (envVarFor (toLowerStr preferred)) = none := by
          by_cases hne2 : envVarFor (toLowerStr preferred) ≠ "UNKNOWN"
          · right
            rw [if_pos hne2] at hbr
            exact hbr
          · exact Or.inl (not_not.mp hne2)
        have hok := (apiKeyLoop_characterize env (toLowerStr preferred) providersList
          (hskip_of_preferred_none env preferred hpre)).2 p v kv hfq hkv
        rw [hok] at herr
        exact absurd herr (by simp)
    · intro hall
      rw [get_api_key_none]
      have hbranch : (if envVarFor (toLowerStr preferred) ≠ "UNKNOWN"
          then env (envVarFor (toLowerStr preferred)) else none) = none := by
        by_cases hne : envVarFor (toLowerStr preferred) ≠ "UNKNOWN"
        · rw [if_pos hne]
          rcases envVarFor_covered (toLowerStr preferred) with hu | ⟨pv, hpv, hev⟩
          · exact absurd hu hne
          · rw [hev]
            exact hall pv hpv
        · rw [if_neg hne]
      rw [hbranch]
      apply (apiKeyLoop_characterize env (toLowerStr preferred) providersList
        (fun pv hpv _ => hall pv hpv)).1
      apply List.find?_eq_none.mpr
      intro q hq
      simp [hall q hq]

/-- Claim C9, witness: with only the Mistral environment credential set and
`anthropic` preferred, the fallback loop returns the first available
provider, Mistral. -/
theorem claim_C9_witness :
    get_api_key none envMistralOnly "anthropic" = .ok ("mistral", "mk") :=
  claim_C9.2.2.1 envMistralOnly "anthropic" "mistral" "MISTRAL_API_KEY" "mk"
    (Or.inr rfl) rfl rfl

/-- Claim C10, counterexample: on an answer with a tagged block `A` and
then a bare-fenced block `B`, the bare-opened block is stored — under the
stale name `component_2` created for the tagged block, overwriting it — so
a fenced block can be stored as a named component even though its opening
fence carries no language tag. -/
theorem claim_C10_counterexample :
    (parse_formal_specification "```fs\nA\n```\n```\nB\n```"
        VerificationLanguage.fStarLang).components =
      [("description", "```fs\nA\n```\n```\nB\n```"), ("component_2", "B\n")] := rfl

/-- Claim C10, amended: the components map always contains `"description"`
mapped to the full answer; every other key is a synthetic `component_n`
name with `n ≥ 2` — never `component_1`, because the description entry is
inserted first; when no fence line carries a language tag (no fence line
longer than three characters) the description entry is the only one; but a
bare-fenced block following an earlier tagged block is stored under that
block's stale name, so storage is not limited to tagged-opening blocks. -/
theorem claim_C10_amended :
    ∀ (content : String) (lang : VerificationLanguage),
      (parse_formal_specification content lang).components.lookup "description"
          = some content ∧
      (∀ k ∈ (parse_formal_specification content lang).components.keys,
        k = "description" ∨ ∃ n, 2 ≤ n ∧ k = "component_" ++ Nat.repr n) ∧
      (∀ k ∈ (parse_formal_specification content lang).components.keys,
        k ≠ "component_1") ∧
      ((∀ l ∈ rustLines content, ¬(startsWithStr l "```" = true ∧ 3 < l.length)) →
        (parse_formal_specification content lang).components
          = [("description", content)]) := by
  intro content lang
  obtain ⟨h1, h3⟩ := parse_components_inv content lang
  refine ⟨h1, ?_, ?_, parse_components_noTag content lang⟩
  · intro k hk
    exact h3 k hk
  · intro k hk
    rcases h3 k hk with hd | hNF
    · rw [hd]
      decide
    · obtain ⟨n, hn, he⟩ := hNF
      rw [he]
      exact component_ne_component_one n hn

/-- Claim C10, witness for the amended statement: an answer whose only
fences are bare stores nothing beyond the description entry. -/
theorem claim_C10_witness :
    (parse_formal_specification "```\ncode here\n```"
        VerificationLanguage.fStarLang).components =
      [("description", "```\ncode here\n```")] :=
  (claim_C10_amended "```\ncode here\n```" VerificationLanguage.fStarLang).2.2.2
    (by decide)

end SpecGen
